import Mathlib

/-!
Verification of the DeSmuMe-Wii profiler subsystem
(`src/source/src/utils/profiler.cpp`), shallow embedding.

The registry is the pointer list `g_scope_ptrs` of `ScopeStats` records;
handles are indices into that list (pointer identity).  All `uint64_t`
arithmetic is modelled as `Nat` reduced modulo `2 ^ 64` where the code can
overflow.  The log storage is a map from rotation generation (0 = base
file `profiler.log`, `g` = `profiler.g.log`) to an optional file holding a
byte size and a list of appended lines.
-/

namespace Profiler

/-- Constant `2 ^ 64`, the modulus of `uint64_t` arithmetic. -/
def U64 : Nat := 2 ^ 64

/-- Constant `FIXED_SCOPE_POOL_SIZE` from profiler.cpp. -/
def FIXED_SCOPE_POOL_SIZE : Nat := 512

/-- Constant `ROTATE_BYTES` from profiler.cpp (2 MiB). -/
def ROTATE_BYTES : Nat := 2 * 1024 * 1024

/-- Constant `MAX_ROTATE` from profiler.cpp. -/
def MAX_ROTATE : Nat := 3

/-- Constant `DUMP_INTERVAL_SEC` from profiler.cpp. -/
def DUMP_INTERVAL_SEC : Nat := 10

/-- Constant `MAX_DUMP_SCOPES` from profiler.cpp. -/
def MAX_DUMP_SCOPES : Nat := 20

/-- The `ScopeStats` struct of profiler.h: one aggregated counter per
distinct scope name.  `calls`, `total_ns`, `max_ns` are `uint64_t`. -/
structure ScopeStats where
  name : String
  calls : Nat
  total_ns : Nat
  max_ns : Nat
deriving DecidableEq, Repr

/-- The field initialisation done by `GetScopeByName` on a fresh pool slot:
`s->name = name; s->calls = 0; s->total_ns = 0; s->max_ns = 0;`. -/
def freshScope (name : String) : ScopeStats :=
  { name := name, calls := 0, total_ns := 0, max_ns := 0 }

/-- The linear search loop of `GetScopeByName`
(`for i < g_scope_ptrs_count: if strcmp(g_scope_ptrs[i]->name, name) == 0`),
returning the index of the first entry whose name matches. -/
def findScope : List ScopeStats → String → Option Nat
  | [], _ => none
  | s :: rest, n => if s.name = n then some 0 else (findScope rest n).map (· + 1)

/-- Function `GetScopeByName` from profiler.cpp: search the pointer list; on a miss,
return a null handle if the fixed pool is exhausted
(`g_fixed_scope_count >= FIXED_SCOPE_POOL_SIZE`), otherwise initialise the
next slot and append it to the pointer list.  The handle is the index of
the returned `ScopeStats` (pointer identity); the second component is the
registry after the call. -/
def getScopeByName (reg : List ScopeStats) (name : String) :
    Option Nat × List ScopeStats :=
  match findScope reg name with
  | some i => (some i, reg)
  | none =>
    if FIXED_SCOPE_POOL_SIZE ≤ reg.length then (none, reg)
    else (some reg.length, reg ++ [freshScope name])

/-- The elapsed-time computation of `ScopedTimer::~ScopedTimer`:
`elapsed = (end > start_ns) ? (end - start_ns) : 0`. -/
def elapsedNs (start_ns end_ns : Nat) : Nat :=
  if start_ns < end_ns then end_ns - start_ns else 0

/-- The counter update of `ScopedTimer::~ScopedTimer`, performed under the
spinlock: `calls += 1; total_ns += elapsed; if (elapsed > max_ns)
max_ns = elapsed;` with `uint64_t` (mod `2 ^ 64`) arithmetic. -/
def foldSample (s : ScopeStats) (elapsed : Nat) : ScopeStats :=
  { s with
    calls := (s.calls + 1) % U64
    total_ns := (s.total_ns + elapsed) % U64
    max_ns := if s.max_ns < elapsed then elapsed else s.max_ns }

/-- Folding a whole sequence of completed samples into one entry:
one `foldSample` per `ScopedTimer` destruction, in order. -/
def foldSamples (s : ScopeStats) (ds : List Nat) : ScopeStats :=
  ds.foldl foldSample s

theorem U64_pos : 0 < U64 := by decide

/-- Behaviour of a sequence of folds on an entry whose machine counters are
in range: `calls` and `total_ns` evolve modulo `2 ^ 64`, `max_ns` by the
running maximum. -/
theorem foldSamples_spec (ds : List Nat) (s : ScopeStats)
    (hc : s.calls < U64) (ht : s.total_ns < U64) :
    (foldSamples s ds).name = s.name ∧
    (foldSamples s ds).calls = (s.calls + ds.length) % U64 ∧
    (foldSamples s ds).total_ns = (s.total_ns + ds.sum) % U64 ∧
    (foldSamples s ds).max_ns = ds.foldl (fun m d => if m < d then d else m) s.max_ns := by
  induction ds generalizing s with
  | nil =>
    simp [foldSamples, Nat.mod_eq_of_lt hc, Nat.mod_eq_of_lt ht]
  | cons d ds ih =>
    have hc' : (s.calls + 1) % U64 < U64 := Nat.mod_lt _ U64_pos
    have ht' : (s.total_ns + d) % U64 < U64 := Nat.mod_lt _ U64_pos
    have hstep : foldSamples s (d :: ds) = foldSamples (foldSample s d) ds := rfl
    obtain ⟨hn, hcs, hts, hms⟩ := ih (foldSample s d) hc' ht'
    refine ⟨by simpa [foldSample] using hn, ?_, ?_, ?_⟩
    · rw [hstep, hcs]
      show ((s.calls + 1) % U64 + ds.length) % U64 = (s.calls + (ds.length + 1)) % U64
      rw [Nat.mod_add_mod]
      ring_nf
    · rw [hstep, hts]
      show ((s.total_ns + d) % U64 + ds.sum) % U64 = (s.total_ns + (d + ds.sum)) % U64
      rw [Nat.mod_add_mod]
      ring_nf
    · rw [hstep, hms]
      rfl

/-- The running-maximum fold used by the destructor agrees with `Nat.max`. -/
theorem foldMax_eq_foldl_max (ds : List Nat) (m : Nat) :
    ds.foldl (fun m d => if m < d then d else m) m = ds.foldl max m := by
  induction ds generalizing m with
  | nil => rfl
  | cons d ds ih =>
    have hstep : (if m < d then d else m) = max m d := by
      rcases Nat.lt_or_ge m d with h | h
      · simp [h, Nat.max_eq_right (Nat.le_of_lt h)]
      · simp [Nat.not_lt.mpr h, Nat.max_eq_left h]
    simp only [List.foldl_cons, hstep, ih]

/-- C8: The elapsed duration folded by `ScopedTimer::~ScopedTimer` is
`max 0 (now - start)`: when the completion reading is at or before the
construction reading the sample is clamped to zero instead of
underflowing. -/
theorem scoped_timer_elapsed_clamped (start_ns end_ns : Nat) :
    (elapsedNs start_ns end_ns : Int) = max 0 ((end_ns : Int) - (start_ns : Int)) := by
  unfold elapsedNs
  split <;> omega

/-- C1 (amended): folding `N` completed samples `d_1..d_N` into a freshly
created entry yields `calls = N mod 2^64`, `total_ns = (Σ d_i) mod 2^64`
(the exact sum whenever it fits in 64 bits) and `max_ns = max(d_i)`
(`0` when `N = 0`). -/
theorem fold_sequence_counters (name : String) (ds : List Nat) :
    (foldSamples (freshScope name) ds).calls = ds.length % U64 ∧
    (foldSamples (freshScope name) ds).total_ns = ds.sum % U64 ∧
    (foldSamples (freshScope name) ds).max_ns = ds.foldl max 0 := by
  obtain ⟨-, hc, ht, hm⟩ :=
    foldSamples_spec ds (freshScope name)
      (by simpa [freshScope] using U64_pos) (by simpa [freshScope] using U64_pos)
  refine ⟨?_, ?_, ?_⟩
  · simpa [freshScope] using hc
  · simpa [freshScope] using ht
  · rw [hm, foldMax_eq_foldl_max]
    rfl

/-- C1 counterexample: two samples of `2^63` ns each overflow the
`uint64_t` accumulator, so `total_ns` is `0`, not the exact integer sum
`2^64`; the claim as stated fails at this input. -/
theorem fold_sequence_exact_sum_counterexample :
    ¬ ((foldSamples (freshScope "CPU_Frame") [2 ^ 63, 2 ^ 63 + 1]).calls = 2 ∧
       (foldSamples (freshScope "CPU_Frame") [2 ^ 63, 2 ^ 63 + 1]).total_ns =
         [2 ^ 63, 2 ^ 63 + 1].sum ∧
       (foldSamples (freshScope "CPU_Frame") [2 ^ 63, 2 ^ 63 + 1]).max_ns =
         2 ^ 63 + 1) := by
  intro h
  have := h.2.1
  revert this
  decide

/-- After appending a fresh entry for a previously absent name, the linear
search finds exactly that entry, at index `reg.length`. -/
theorem findScope_append_self (reg : List ScopeStats) (s : ScopeStats)
    (h : findScope reg s.name = none) :
    findScope (reg ++ [s]) s.name = some reg.length := by
  induction reg with
  | nil => simp [findScope]
  | cons a reg ih =>
    simp only [findScope, List.cons_append] at h ⊢
    by_cases ha : a.name = s.name
    · simp [ha] at h
    · simp only [if_neg ha] at h ⊢
      have h' : findScope reg s.name = none := by
        cases hfr : findScope reg s.name <;> simp [hfr] at h ⊢
      show Option.map (fun x => x + 1) (findScope (reg ++ [s]) s.name) =
        some (reg.length + 1)
      rw [ih h']
      rfl

/-- C2: on a registry already holding the maximum number (512) of distinct
scope names, a further distinct name makes `GetScopeByName` return the
null handle and leave the registry — every entry's `name`, `calls`,
`total_ns` and `max_ns` — unchanged. -/
theorem getScope_full_returns_none (reg : List ScopeStats) (name : String)
    (hnodup : (reg.map ScopeStats.name).Nodup)
    (hlen : reg.length = FIXED_SCOPE_POOL_SIZE)
    (hfind : findScope reg name = none) :
    getScopeByName reg name = (none, reg) := by
  unfold getScopeByName
  rw [hfind]
  simp [hlen]

/-- A registry filled to capacity with 512 distinct names. -/
def fullReg : List ScopeStats :=
  (List.range FIXED_SCOPE_POOL_SIZE).map
    (fun i => freshScope (String.mk (List.replicate i 'x')))

theorem fullReg_nodup : (fullReg.map ScopeStats.name).Nodup := by
  have hinj : Function.Injective (fun i : Nat => String.mk (List.replicate i 'x')) := by
    intro a b h
    have := congrArg (fun s : String => s.data.length) h
    simpa using this
  have hmap : fullReg.map ScopeStats.name =
      (List.range FIXED_SCOPE_POOL_SIZE).map
        (fun i => String.mk (List.replicate i 'x')) := by
    simp [fullReg, freshScope, Function.comp]
  rw [hmap]
  exact (List.nodup_range _).map hinj

set_option maxRecDepth 100000 in
/-- Witness for C2: the 513th distinct name on the full registry. -/
theorem getScope_full_returns_none_witness :
    (fullReg.map ScopeStats.name).Nodup ∧
    fullReg.length = FIXED_SCOPE_POOL_SIZE ∧
    findScope fullReg "Overflow_Scope" = none ∧
    getScopeByName fullReg "Overflow_Scope" = (none, fullReg) := by
  refine ⟨fullReg_nodup, by simp [fullReg], by decide, ?_⟩
  exact getScope_full_returns_none fullReg "Overflow_Scope" fullReg_nodup
    (by simp [fullReg]) (by decide)

/-- C9: `GetScopeByName` is idempotent: a second call with the same name
returns the same handle (the same entry identity) and leaves the registry
exactly as the first call left it — no new entry is created. -/
theorem getScope_idempotent (reg : List ScopeStats) (name : String) :
    getScopeByName (getScopeByName reg name).2 name = getScopeByName reg name := by
  cases hf : findScope reg name with
  | some i => simp [getScopeByName, hf]
  | none =>
    by_cases hl : FIXED_SCOPE_POOL_SIZE ≤ reg.length
    · simp [getScopeByName, hf, hl]
    · have hfa : findScope (reg ++ [freshScope name]) name = some reg.length :=
        findScope_append_self reg (freshScope name) (by simpa [freshScope] using hf)
      simp [getScopeByName, hf, hl, hfa]

/-- The inner loop of `DumpNow`'s selection sort: scanning `xs` (whose
first element sits at position `j` of the original list), keep the first
strictly greater `total_ns` seen so far, starting from candidate `best`
at position `bestIdx`.  Mirrors
`for j = i+1..: if copies[idx[j]].total_ns > copies[idx[best]].total_ns
best = j;`. -/
def selBest : List ScopeStats → ScopeStats → Nat → Nat → ScopeStats × Nat
  | [], best, bestIdx, _ => (best, bestIdx)
  | x :: xs, best, bestIdx, j =>
    if best.total_ns < x.total_ns then selBest xs x j (j + 1)
    else selBest xs best bestIdx (j + 1)

/-- The selection sort of `DumpNow` (descending by `total_ns`): find the
first maximum among the remaining entries, swap it with the front
position, recurse.  The swap places the old front element at the maximum's
former position, exactly as `idx[i] <-> idx[best]` in the code. -/
def selSort : List ScopeStats → List ScopeStats
  | [] => []
  | a :: xs =>
    let mb := selBest xs a 0 1
    if mb.2 = 0 then a :: selSort xs
    else mb.1 :: selSort (xs.set (mb.2 - 1) a)
termination_by l => l.length
decreasing_by
  · simp
  · simp [List.length_set]

/-- The value returned by `selBest` dominates the starting candidate and
every scanned element. -/
theorem selBest_ge (xs : List ScopeStats) (best : ScopeStats) (bi j : Nat) :
    best.total_ns ≤ (selBest xs best bi j).1.total_ns ∧
    ∀ x ∈ xs, x.total_ns ≤ (selBest xs best bi j).1.total_ns := by
  induction xs generalizing best bi j with
  | nil => simp [selBest]
  | cons x xs ih =>
    by_cases h : best.total_ns < x.total_ns
    · simp only [selBest, if_pos h]
      obtain ⟨h1, h2⟩ := ih x j (j + 1)
      exact ⟨le_trans (le_of_lt h) h1, by
        intro y hy
        rcases List.mem_cons.mp hy with rfl | hy
        · exact h1
        · exact h2 y hy⟩
    · simp only [selBest, if_neg h]
      obtain ⟨h1, h2⟩ := ih best bi (j + 1)
      exact ⟨h1, by
        intro y hy
        rcases List.mem_cons.mp hy with rfl | hy
        · exact le_trans (Nat.le_of_not_lt h) h1
        · exact h2 y hy⟩

/-- Function `selBest` either keeps the starting candidate and index, or returns
the element at a definite position of the scanned list. -/
theorem selBest_val_idx (xs : List ScopeStats) (best : ScopeStats) (bi j : Nat) :
    selBest xs best bi j = (best, bi) ∨
    ∃ (k : Nat) (hk : k < xs.length),
      (selBest xs best bi j).2 = j + k ∧
      (selBest xs best bi j).1 = xs.get ⟨k, hk⟩ := by
  induction xs generalizing best bi j with
  | nil => exact Or.inl rfl
  | cons x xs ih =>
    by_cases h : best.total_ns < x.total_ns
    · simp only [selBest, if_pos h]
      rcases ih x j (j + 1) with heq | ⟨k, hk, hidx, hval⟩
      · refine Or.inr ⟨0, by simp, ?_, ?_⟩
        · simp [heq]
        · simp [heq]
      · refine Or.inr ⟨k + 1, by simp; omega, ?_, ?_⟩
        · rw [hidx]; omega
        · rw [hval]; rfl
    · simp only [selBest, if_neg h]
      rcases ih best bi (j + 1) with heq | ⟨k, hk, hidx, hval⟩
      · exact Or.inl heq
      · refine Or.inr ⟨k + 1, by simp; omega, ?_, ?_⟩
        · rw [hidx]; omega
        · rw [hval]; rfl

/-- Swapping the front element into position `k` and pulling out the old
position-`k` element is a permutation. -/
theorem perm_get_set (xs : List ScopeStats) (a : ScopeStats) (k : Nat)
    (hk : k < xs.length) :
    (xs.get ⟨k, hk⟩ :: xs.set k a).Perm (a :: xs) := by
  induction xs generalizing k with
  | nil => simp at hk
  | cons x xs ih =>
    cases k with
    | zero => exact List.Perm.swap a x xs
    | succ k =>
      have hk' : k < xs.length := by simpa using hk
      have step : (xs.get ⟨k, hk'⟩ :: xs.set k a).Perm (a :: xs) := ih k hk'
      have s1 : (xs.get ⟨k, hk'⟩ :: x :: xs.set k a).Perm
          (x :: xs.get ⟨k, hk'⟩ :: xs.set k a) :=
        List.Perm.swap x (xs.get ⟨k, hk'⟩) (xs.set k a)
      have s2 : (x :: xs.get ⟨k, hk'⟩ :: xs.set k a).Perm (x :: a :: xs) :=
        step.cons x
      have s3 : (x :: a :: xs).Perm (a :: x :: xs) := List.Perm.swap a x xs
      exact s1.trans (s2.trans s3)

/-- Function `selSort` permutes its input: the dump reorders the snapshot without
dropping or duplicating entries. -/
theorem selSort_perm (l : List ScopeStats) : (selSort l).Perm l := by
  induction l using selSort.induct with
  | case1 => simp [selSort]
  | case2 a xs mb h0 ih =>
    have h0' : (selBest xs a 0 1).2 = 0 := h0
    simp only [selSort, h0', if_pos]
    exact ih.cons a
  | case3 a xs mb h0 ih =>
    have h0' : ¬ (selBest xs a 0 1).2 = 0 := h0
    simp only [selSort, h0', if_false]
    rcases selBest_val_idx xs a 0 1 with heq | ⟨k, hk, hidx, hval⟩
    · exact absurd (by rw [heq] : (selBest xs a 0 1).2 = 0) h0'
    · have hk1 : (selBest xs a 0 1).2 - 1 = k := by omega
      have ih' : (selSort (xs.set ((selBest xs a 0 1).2 - 1) a)).Perm
          (xs.set ((selBest xs a 0 1).2 - 1) a) := ih
      rw [hk1] at ih'
      rw [hval, hk1]
      exact (ih'.cons _).trans (perm_get_set xs a k hk)

/-- Function `selSort` output is sorted by `total_ns`, descending. -/
theorem selSort_sorted (l : List ScopeStats) :
    List.Pairwise (fun x y => y.total_ns ≤ x.total_ns) (selSort l) := by
  induction l using selSort.induct with
  | case1 => simp [selSort]
  | case2 a xs mb h0 ih =>
    have h0' : (selBest xs a 0 1).2 = 0 := h0
    simp only [selSort, h0', if_pos]
    rw [List.pairwise_cons]
    refine ⟨?_, ih⟩
    intro y hy
    have hy' : y ∈ xs := (selSort_perm xs).mem_iff.mp hy
    rcases selBest_val_idx xs a 0 1 with heq | ⟨k, hk, hidx, hval⟩
    · have hvala : (selBest xs a 0 1).1 = a := by rw [heq]
      have := (selBest_ge xs a 0 1).2 y hy'
      rwa [hvala] at this
    · omega
  | case3 a xs mb h0 ih =>
    have h0' : ¬ (selBest xs a 0 1).2 = 0 := h0
    simp only [selSort, h0', if_false]
    rw [List.pairwise_cons]
    have ih' : List.Pairwise (fun x y => y.total_ns ≤ x.total_ns)
        (selSort (xs.set ((selBest xs a 0 1).2 - 1) a)) := ih
    refine ⟨?_, ih'⟩
    intro y hy
    have hy' : y ∈ xs.set ((selBest xs a 0 1).2 - 1) a :=
      (selSort_perm _).mem_iff.mp hy
    rcases List.mem_or_eq_of_mem_set hy' with hyx | hya
    · exact (selBest_ge xs a 0 1).2 y hyx
    · rw [hya]; exact (selBest_ge xs a 0 1).1

/-- The report record written per retained scope by `DumpNow`'s `fprintf`:
`{scope, calls, total_ms, avg_ms, max_ms, pct_total}`.  The `double`
quantities of the code are modelled as exact rationals. -/
structure ReportRecord where
  scope : String
  calls : Nat
  total_ms : ℚ
  avg_ms : ℚ
  max_ms : ℚ
  pct_total : ℚ
deriving DecidableEq, Repr

/-- The grand total computed by `DumpNow` over **all** snapshotted copies,
before sorting and truncation: `total_ns_all += copies[i].total_ns` in
`uint64_t` arithmetic. -/
def grandTotalNs (reg : List ScopeStats) : Nat :=
  (reg.map ScopeStats.total_ns).sum % U64

/-- The per-entry derived quantities of `DumpNow`'s print loop:
`total_ms = total_ns / 1e6`, `avg_ms = calls ? total_ms / calls : 0`,
`max_ms = max_ns / 1e6`, `pct = total_ns_all ? total_ns * 100 /
total_ns_all : 0`. -/
def mkRecord (total_ns_all : Nat) (sc : ScopeStats) : ReportRecord :=
  { scope := sc.name
    calls := sc.calls
    total_ms := (sc.total_ns : ℚ) / 1000000
    avg_ms := if sc.calls = 0 then 0 else ((sc.total_ns : ℚ) / 1000000) / (sc.calls : ℚ)
    max_ms := (sc.max_ns : ℚ) / 1000000
    pct_total := if total_ns_all = 0 then 0
      else (sc.total_ns : ℚ) * 100 / (total_ns_all : ℚ) }

/-- The report batch produced by one `DumpNow`: snapshot copies in
registration order, grand total over all of them, selection sort
descending by `total_ns`, truncation to `MAX_DUMP_SCOPES`, then one
formatted record per retained entry. -/
def dumpReport (reg : List ScopeStats) : List ReportRecord :=
  ((selSort reg).take MAX_DUMP_SCOPES).map (mkRecord (grandTotalNs reg))

/-- The report keeps at most `MAX_DUMP_SCOPES` entries, and exactly
`min MAX_DUMP_SCOPES reg.length` of them. -/
theorem dumpReport_length (reg : List ScopeStats) :
    (dumpReport reg).length = min MAX_DUMP_SCOPES reg.length := by
  simp [dumpReport, (selSort_perm reg).length_eq]

/-- Registry used for the spec's ranking example: scopes whose `total_ms`
values are `[10, 50, 5, 100]`. -/
def exampleScopes : List ScopeStats :=
  [⟨"SA", 1, 10000000, 0⟩, ⟨"SB", 1, 50000000, 0⟩,
   ⟨"SC", 1, 5000000, 0⟩, ⟨"SD", 1, 100000000, 0⟩]

/-- C3 (amended): every report batch is sorted by `total_ms` (hence
`total_duration`) descending — ties are left in the deterministic order
produced by the selection sort, not re-ordered by name — and is truncated
to at most the top `K = 20` entries; for scopes with `total_ms` values
`[10, 50, 5, 100]` the ranked report lists them as `[100, 50, 10, 5]`. -/
theorem dump_ranked_descending :
    (∀ reg : List ScopeStats,
      List.Pairwise (fun x y => y.total_ms ≤ x.total_ms) (dumpReport reg) ∧
      (dumpReport reg).length ≤ MAX_DUMP_SCOPES) ∧
    (dumpReport exampleScopes).map ReportRecord.total_ms = [100, 50, 10, 5] := by
  constructor
  · intro reg
    constructor
    · have hs := selSort_sorted reg
      have ht : List.Pairwise (fun x y => y.total_ns ≤ x.total_ns)
          ((selSort reg).take MAX_DUMP_SCOPES) :=
        List.Pairwise.sublist (List.take_sublist _ _) hs
      rw [dumpReport, List.pairwise_map]
      refine ht.imp ?_
      intro x y h
      show (mkRecord (grandTotalNs reg) y).total_ms ≤
        (mkRecord (grandTotalNs reg) x).total_ms
      simp only [mkRecord]
      exact (div_le_div_iff_of_pos_right (by norm_num)).mpr (by exact_mod_cast h)
    · rw [dumpReport_length]
      omega
  · simp only [dumpReport, exampleScopes, selSort, selBest, grandTotalNs,
      MAX_DUMP_SCOPES, U64]
    norm_num [selSort, selBest, mkRecord]

/-- Two scopes with identical totals, registered in the order
`"b"` then `"a"`. -/
def tieScopes : List ScopeStats :=
  [⟨"b", 1, 1000000, 0⟩, ⟨"a", 1, 1000000, 0⟩]

/-- Byte-wise lexicographic "name ascending" order on strings, as the spec
prescribes for tie-breaking (the order `strcmp` would induce). -/
def nameLtChars : List Char → List Char → Bool
  | [], [] => false
  | [], _ :: _ => true
  | _ :: _, [] => false
  | c :: cs, d :: ds =>
    if c.val < d.val then true
    else if d.val < c.val then false
    else nameLtChars cs ds

/-- Holds when `a` comes at or before `b` in the spec's name-ascending order. -/
def nameLe (a b : String) : Bool := a == b || nameLtChars a.data b.data

/-- C3 counterexample: the claim's ordering — `total_duration` descending
with ties broken by name ascending — fails on the report for `tieScopes`:
the two equal-total entries appear as `["b", "a"]`, not name-ascending. -/
theorem dump_tie_name_order_counterexample :
    ¬ List.Pairwise (fun x y : ReportRecord =>
        y.total_ms < x.total_ms ∨
        (x.total_ms = y.total_ms ∧ nameLe x.scope y.scope = true))
      (dumpReport tieScopes) := by
  have hrep : dumpReport tieScopes =
      [mkRecord 2000000 ⟨"b", 1, 1000000, 0⟩,
       mkRecord 2000000 ⟨"a", 1, 1000000, 0⟩] := by
    simp [dumpReport, tieScopes, selSort, selBest, grandTotalNs,
      MAX_DUMP_SCOPES, U64]
  rw [hrep]
  intro h
  rcases List.pairwise_cons.mp h with ⟨hrel, -⟩
  rcases hrel _ (List.mem_singleton.mpr rfl) with hlt | ⟨-, hle⟩
  · simp only [mkRecord] at hlt
    norm_num at hlt
  · revert hle
    decide

/-- One log file: its `stat` size in bytes and its appended lines. -/
structure LogFile (α : Type) where
  size : Nat
  lines : List α
deriving DecidableEq

/-- The log directory, seen as the family of rotation generations:
generation `0` is the base `profiler.log`, generation `g ≥ 1` is
`profiler.g.log`; `none` means the file does not exist. -/
def LogFS (α : Type) : Type := Nat → Option (LogFile α)

/-- Operation `remove(name)`: the file of generation `g` ceases to exist. -/
def fsRemove {α : Type} (fs : LogFS α) (g : Nat) : LogFS α :=
  fun g2 => if g2 = g then none else fs g2

/-- Operation `rename(src, dst)`: when the source exists it overwrites the
destination and disappears; a failed rename (missing source) changes
nothing. -/
def fsRename {α : Type} (fs : LogFS α) (src dst : Nat) : LogFS α :=
  match fs src with
  | none => fs
  | some f => fun g2 => if g2 = dst then some f else if g2 = src then none else fs g2

/-- The rotation loop of `rotate_logs_if_needed`:
`for (int i = MAX_ROTATE - 1; i >= 0; --i) rename(generation i,
generation i+1)`, with `i = 0` denoting the base file. -/
def renameDown {α : Type} (fs : LogFS α) : Nat → LogFS α
  | 0 => fsRename fs 0 1
  | i + 1 => renameDown (fsRename fs (i + 1) (i + 2)) i

/-- Function `rotate_logs_if_needed` from profiler.cpp: if the base log file cannot
be statted or its size is at most `ROTATE_BYTES`, do nothing; otherwise
remove generation `MAX_ROTATE` and shift every younger generation up by
one. -/
def rotate_logs_if_needed {α : Type} (fs : LogFS α) : LogFS α :=
  match fs 0 with
  | none => fs
  | some f =>
    if f.size ≤ ROTATE_BYTES then fs
    else renameDown (fsRemove fs MAX_ROTATE) (MAX_ROTATE - 1)

/-- Operation `fopen(LOG_FILE, "a")` followed by the print loop: create the base
file when absent, append the batch, and grow the recorded size by the
serialized byte count of the batch (`lineBytes` gives each line's size). -/
def appendFile {α : Type} (lineBytes : α → Nat) (old : Option (LogFile α))
    (batch : List α) : LogFile α :=
  match old with
  | none => ⟨(batch.map lineBytes).sum, batch⟩
  | some f => ⟨f.size + (batch.map lineBytes).sum, f.lines ++ batch⟩

/-- The storage side of `DumpNow`: rotate if needed, then — when `fopen`
succeeds (`openOk`) — append the batch to the base file; on an open
failure the batch is dropped (the rotation has already happened). -/
def sinkAppend {α : Type} (lineBytes : α → Nat) (fs : LogFS α) (openOk : Bool)
    (batch : List α) : LogFS α :=
  let fs2 := rotate_logs_if_needed fs
  if openOk then
    fun g => if g = 0 then some (appendFile lineBytes (fs2 0) batch) else fs2 g
  else fs2

/-- What one generational rotation cycle must produce: the base file is
gone (fresh), generations `1..MAX_ROTATE` hold what generations
`0..MAX_ROTATE-1` held, the old generation `MAX_ROTATE` is dropped, and
generations beyond are untouched. -/
def rotatedSpec {α : Type} (fs : LogFS α) : LogFS α :=
  fun g => if g = 0 then none else if g ≤ MAX_ROTATE then fs (g - 1) else fs g

/-- C4: when the base log file's size strictly exceeds the 2 MiB
threshold, exactly one generational rotation cycle runs before the
append — generation 3 dropped, generations 0..2 shifted to 1..3, at most
`MAX_ROTATE` historical generations kept — and the batch then goes to a
fresh base file holding exactly the batch; when the size is at or below
the threshold, no file is renamed or removed. -/
theorem rotation_cycle (lineBytes : ReportRecord → Nat)
    (batch : List ReportRecord) (fs : LogFS ReportRecord)
    (f : LogFile ReportRecord) (h0 : fs 0 = some f) :
    (ROTATE_BYTES < f.size →
      rotate_logs_if_needed fs = rotatedSpec fs ∧
      sinkAppend lineBytes fs true batch 0 =
        some ⟨(batch.map lineBytes).sum, batch⟩) ∧
    (f.size ≤ ROTATE_BYTES → rotate_logs_if_needed fs = fs) := by
  constructor
  · intro hsz
    have hrot : rotate_logs_if_needed fs = rotatedSpec fs := by
      have hne : ¬ f.size ≤ ROTATE_BYTES := Nat.not_le.mpr hsz
      unfold rotate_logs_if_needed
      rw [h0]
      simp only [hne, if_false]
      have hrd : renameDown (fsRemove fs MAX_ROTATE) (MAX_ROTATE - 1) =
          fsRename (fsRename (fsRename (fsRemove fs 3) 2 3) 1 2) 0 1 := rfl
      rw [hrd]
      funext g
      rcases h2 : fs 2 with _ | f2 <;> rcases h1 : fs 1 with _ | f1 <;>
        rcases g with _ | _ | _ | _ | g <;>
          simp [fsRename, fsRemove, rotatedSpec, h0, h1, h2, MAX_ROTATE]
    refine ⟨hrot, ?_⟩
    simp only [sinkAppend, hrot, if_pos]
    have : rotatedSpec fs 0 = none := by simp [rotatedSpec]
    simp [this, appendFile]
  · intro hsz
    unfold rotate_logs_if_needed
    rw [h0]
    simp [hsz]

/-- A concrete filesystem for the rotation witness: an oversized base
file and one historical generation. -/
def rotFS : LogFS ReportRecord :=
  fun g => if g = 0 then some ⟨3000000, []⟩
    else if g = 1 then some ⟨10, []⟩ else none

/-- Witness for C4: rotating `rotFS` (base size 3 MB > 2 MiB). -/
theorem rotation_cycle_witness :
    rotFS 0 = some ⟨3000000, []⟩ ∧ ROTATE_BYTES < 3000000 ∧
    rotate_logs_if_needed rotFS = rotatedSpec rotFS ∧
    sinkAppend (fun _ => 1) rotFS true [] 0 = some ⟨0, []⟩ := by
  have h := rotation_cycle (fun _ => 1) [] rotFS ⟨3000000, []⟩ rfl
  have h2 := h.1 (by norm_num [ROTATE_BYTES])
  exact ⟨rfl, by norm_num [ROTATE_BYTES], h2.1, by simpa using h2.2⟩

/-- An arbitrary interleaving of two threads' sample sequences: each fold
is atomic (the destructor's counter update runs under the spinlock), so a
concurrent execution is some order-preserving merge of the two lists. -/
inductive Interleaving : List Nat → List Nat → List Nat → Prop
  | nil : Interleaving [] [] []
  | left (d : Nat) {as bs cs : List Nat} :
      Interleaving as bs cs → Interleaving (d :: as) bs (d :: cs)
  | right (d : Nat) {as bs cs : List Nat} :
      Interleaving as bs cs → Interleaving as (d :: bs) (d :: cs)

/-- A merge has the combined length and the combined sum. -/
theorem interleaving_length_sum {a b c : List Nat} (h : Interleaving a b c) :
    c.length = a.length + b.length ∧ c.sum = a.sum + b.sum := by
  induction h with
  | nil => simp
  | left d h ih => simp only [List.length_cons, List.sum_cons, ih.1, ih.2]; omega
  | right d h ih => simp only [List.length_cons, List.sum_cons, ih.1, ih.2]; omega

/-- C5 (amended): two threads folding `M` samples each into the same
freshly created scope, in any interleaved order, lose no update: the final
counters are `calls = 2M mod 2^64` and `total_ns = (Σ all 2M durations)
mod 2^64` (the exact values whenever they fit in 64 bits). -/
theorem concurrent_folds (name : String) (M : Nat) (l1 l2 c : List Nat)
    (h : Interleaving l1 l2 c) (h1 : l1.length = M) (h2 : l2.length = M) :
    (foldSamples (freshScope name) c).calls = (2 * M) % U64 ∧
    (foldSamples (freshScope name) c).total_ns = (l1.sum + l2.sum) % U64 := by
  obtain ⟨hlen, hsum⟩ := interleaving_length_sum h
  obtain ⟨-, hc, ht, -⟩ :=
    foldSamples_spec c (freshScope name)
      (by simpa [freshScope] using U64_pos) (by simpa [freshScope] using U64_pos)
  constructor
  · rw [hc, hlen, h1, h2]
    simp [freshScope]
    ring_nf
  · rw [ht, hsum]
    simp [freshScope]

/-- Witness for C5: `M = 1`, durations `5` and `7`, interleaving
`[5, 7]`. -/
theorem concurrent_folds_witness :
    Interleaving [5] [7] [5, 7] ∧
    (foldSamples (freshScope "Mem_Read") [5, 7]).calls = (2 * 1) % U64 ∧
    (foldSamples (freshScope "Mem_Read") [5, 7]).total_ns =
      ([5].sum + [7].sum) % U64 := by
  have h := concurrent_folds "Mem_Read" 1 [5] [7] [5, 7]
    (.left _ (.right _ .nil)) rfl rfl
  exact ⟨.left _ (.right _ .nil), h.1, h.2⟩

/-- C5 counterexample: with one `2^63` ns sample per thread the `uint64_t`
total wraps to `0`, not the exact sum `2^64`, so the claim as stated fails
at this interleaving. -/
theorem concurrent_folds_counterexample :
    Interleaving [2 ^ 63] [2 ^ 63] [2 ^ 63, 2 ^ 63] ∧
    ¬ ((foldSamples (freshScope "GPU_Draw") [2 ^ 63, 2 ^ 63]).calls = 2 * 1 ∧
       (foldSamples (freshScope "GPU_Draw") [2 ^ 63, 2 ^ 63]).total_ns =
         [(2 : Nat) ^ 63].sum + [(2 : Nat) ^ 63].sum) := by
  refine ⟨.left _ (.right _ .nil), ?_⟩
  intro h
  have := h.2
  revert this
  decide

/-- C6: every record retained in a dump satisfies
`avg_ms = total_ms / calls` (0 when `calls = 0`) and
`pct_total = 100 * total_ns / grand_total` (0 when `grand_total = 0`),
where `grand_total` is the machine sum of `total_ns` over **all**
snapshotted entries of the registry, not only the retained top-K. -/
theorem report_avg_pct (reg : List ScopeStats) (rec : ReportRecord)
    (h : rec ∈ dumpReport reg) :
    rec.avg_ms =
      (if rec.calls = 0 then 0 else rec.total_ms / (rec.calls : ℚ)) ∧
    ∃ sc ∈ reg, rec.total_ms = (sc.total_ns : ℚ) / 1000000 ∧
      rec.pct_total =
        (if grandTotalNs reg = 0 then 0
         else (sc.total_ns : ℚ) * 100 / (grandTotalNs reg : ℚ)) := by
  rcases List.mem_map.mp h with ⟨sc, hmem, rfl⟩
  have hsc : sc ∈ reg :=
    (selSort_perm reg).mem_iff.mp ((List.take_sublist _ _).subset hmem)
  exact ⟨by simp [mkRecord], sc, hsc, rfl, rfl⟩

/-- A scope entry with two samples folded in, for the C6 witness. -/
def wentry : ScopeStats := ⟨"Audio_Update", 2, 4000000, 3000000⟩

/-- Witness for C6: the sole record of a one-entry registry:
`total_ms = 4`, `avg_ms = 2`, `pct_total = 100`. -/
theorem report_avg_pct_witness :
    mkRecord 4000000 wentry ∈ dumpReport [wentry] ∧
    (mkRecord 4000000 wentry).avg_ms =
      (if (mkRecord 4000000 wentry).calls = 0 then 0
       else (mkRecord 4000000 wentry).total_ms /
         ((mkRecord 4000000 wentry).calls : ℚ)) ∧
    ∃ sc ∈ [wentry],
      (mkRecord 4000000 wentry).total_ms = (sc.total_ns : ℚ) / 1000000 ∧
      (mkRecord 4000000 wentry).pct_total =
        (if grandTotalNs [wentry] = 0 then 0
         else (sc.total_ns : ℚ) * 100 / (grandTotalNs [wentry] : ℚ)) := by
  have hmem : mkRecord 4000000 wentry ∈ dumpReport [wentry] := by
    have hg : grandTotalNs [wentry] = 4000000 := by
      simp [grandTotalNs, wentry, U64]
    simp [dumpReport, selSort, selBest, MAX_DUMP_SCOPES, hg]
  obtain ⟨h1, h2⟩ := report_avg_pct [wentry] (mkRecord 4000000 wentry) hmem
  exact ⟨hmem, h1, h2⟩

/-- Function `PrecreateScopes` from profiler.cpp: registers the thirteen common
scope names (without folding any sample). -/
def PrecreateScopes (reg : List ScopeStats) : List ScopeStats :=
  (["CPU_Frame", "GPU_Draw", "GPU_Flush", "Mem_Read", "Mem_Write",
    "MMU_Lookup", "Audio_Update", "Input_Poll", "VBlank_Wait",
    "FileBrowser_Draw", "FileBrowser_Input", "Menu_PickDevice",
    "Menu_FileBrowser"]).foldl (fun r n => (getScopeByName r n).2) reg

/-- C7 counterexample: after `PrecreateScopes` the registry has thirteen
entries with zero recorded samples, yet the dump report is not empty — one
line per registered scope is written. -/
theorem empty_report_counterexample :
    (∀ s ∈ PrecreateScopes [], s.calls = 0) ∧
    dumpReport (PrecreateScopes []) ≠ [] := by
  refine ⟨by decide, ?_⟩
  intro hempty
  have hlen := dumpReport_length (PrecreateScopes [])
  rw [hempty] at hlen
  have h13 : (PrecreateScopes []).length = 13 := by decide
  rw [h13] at hlen
  norm_num [MAX_DUMP_SCOPES] at hlen

/-- C7 (amended): a dump of a registry with zero *entries* produces an
empty report, and appending that empty report — when the base log file
exists and is at or below the rotation threshold — leaves the log storage
exactly unchanged. -/
theorem empty_report_amended (lineBytes : ReportRecord → Nat)
    (fs : LogFS ReportRecord) (f : LogFile ReportRecord)
    (h0 : fs 0 = some f) (hsz : f.size ≤ ROTATE_BYTES) :
    dumpReport [] = [] ∧ sinkAppend lineBytes fs true (dumpReport []) = fs := by
  have hrep : dumpReport ([] : List ScopeStats) = [] := by
    simp [dumpReport, selSort]
  refine ⟨hrep, ?_⟩
  rw [hrep]
  have hrot : rotate_logs_if_needed fs = fs := by
    unfold rotate_logs_if_needed
    rw [h0]
    simp [hsz]
  funext g
  by_cases hg : g = 0
  · subst hg
    simp [sinkAppend, hrot, h0, appendFile]
  · simp [sinkAppend, hrot, hg]

/-- A small, in-threshold filesystem for the C7 witness. -/
def calmFS : LogFS ReportRecord :=
  fun g => if g = 0 then some ⟨100, []⟩ else none

/-- Witness for C7: an empty dump appended to `calmFS` changes nothing. -/
theorem empty_report_amended_witness :
    calmFS 0 = some ⟨100, []⟩ ∧ (100 : Nat) ≤ ROTATE_BYTES ∧
    dumpReport [] = [] ∧
    sinkAppend (fun _ => 1) calmFS true (dumpReport []) = calmFS := by
  have h := empty_report_amended (fun _ => 1) calmFS ⟨100, []⟩ rfl
    (by norm_num [ROTATE_BYTES])
  exact ⟨rfl, by norm_num [ROTATE_BYTES], h.1, h.2⟩

/-- The profiler's global mutable state besides the log files:
the registry (`g_scope_ptrs`/pool), `g_running`, and `g_last_dump`. -/
structure ProfilerState where
  scopes : List ScopeStats
  running : Bool
  last_dump : Nat
deriving DecidableEq

/-- Function `DumpNow` from profiler.cpp: snapshot and report are pure; the
storage side rotates and appends; `g_last_dump = tnow` is executed only
after a successful `fopen` (`if (!f) return;` precedes it), and no scope
counter is written anywhere. -/
def DumpNow (lineBytes : ReportRecord → Nat) (st : ProfilerState)
    (fs : LogFS ReportRecord) (openOk : Bool) (tnow : Nat) :
    ProfilerState × LogFS ReportRecord :=
  ((if openOk then { st with last_dump := tnow } else st),
   sinkAppend lineBytes fs openOk (dumpReport st.scopes))

/-- Function `TickIfNeeded` from profiler.cpp: when running and at least
`DUMP_INTERVAL_SEC` elapsed since the last dump, performs `DumpNow`. -/
def TickIfNeeded (lineBytes : ReportRecord → Nat) (st : ProfilerState)
    (fs : LogFS ReportRecord) (openOk : Bool) (tnow : Nat) :
    ProfilerState × LogFS ReportRecord :=
  if st.running = false then (st, fs)
  else if DUMP_INTERVAL_SEC ≤ tnow - st.last_dump then
    DumpNow lineBytes st fs openOk tnow
  else (st, fs)

/-- C10: `DumpNow` (also when reached through `TickIfNeeded`) leaves every
scope entry's `calls`, `total_ns` and `max_ns` untouched and does not stop
the profiler; the only profiler state it writes is `last_dump`, and that
only when the log file opened successfully — on an open failure the
profiler state is exactly as before. -/
theorem dump_preserves_counters (lineBytes : ReportRecord → Nat)
    (st : ProfilerState) (fs : LogFS ReportRecord) (openOk : Bool)
    (tnow : Nat) :
    (DumpNow lineBytes st fs openOk tnow).1.scopes = st.scopes ∧
    (DumpNow lineBytes st fs openOk tnow).1.running = st.running ∧
    (DumpNow lineBytes st fs openOk tnow).1 =
      (if openOk then { st with last_dump := tnow } else st) ∧
    (TickIfNeeded lineBytes st fs openOk tnow).1.scopes = st.scopes := by
  refine ⟨?_, ?_, rfl, ?_⟩
  · by_cases h : openOk <;> simp [DumpNow, h]
  · by_cases h : openOk <;> simp [DumpNow, h]
  · unfold TickIfNeeded
    split_ifs
    · rfl
    · by_cases h : openOk <;> simp [DumpNow, h]
    · rfl

end Profiler
